import Mathlib

/-!
Verification development for the RateLimitX402 repository: a token-bucket
rate limiter with two back-ends (in-process and Redis), a sliding-window
trust tracker, a serialized settlement queue, and a hybrid payment
admission pipeline.

The Go code is shallowly embedded over ℚ (Go float64 arithmetic and
timestamps are modelled as exact rationals; Go time.Time values are
modelled as rational second counts).
-/

namespace RateLimitX402

/-! ## In-memory token bucket (pkg/ratelimit/memory, src/unnamed/part_004)

The Go struct carries `capacity`, `refillRate`, `tokens`, `lastRefillTime`
and a mutex.  `capacity` and `refillRate` never change after construction,
so they are passed as parameters and the mutable state is the pair
(`tokens`, `lastRefillTime`).  Each exported method acquires the mutex for
its whole body, so an operation is one atomic state transition. -/

structure Bucket where
  tokens : ℚ
  lastRefill : ℚ
  deriving DecidableEq, Repr

namespace Memory

/-- `NewTokenBucket(capacity, refillRate)`: starts full, `lastRefillTime = now`. -/
def newTokenBucket (capacity now : ℚ) : Bucket :=
  { tokens := capacity, lastRefill := now }

/-- `(*TokenBucket).refill()`: natural regeneration.  Only adds (and clamps)
when the bucket is below capacity; always advances `lastRefillTime`. -/
def refill (capacity refillRate now : ℚ) (b : Bucket) : Bucket :=
  let tokensToAdd := (now - b.lastRefill) * refillRate
  if b.tokens < capacity then
    let t := b.tokens + tokensToAdd
    { tokens := if t > capacity then capacity else t, lastRefill := now }
  else
    { tokens := b.tokens, lastRefill := now }

/-- `(*TokenBucket).Allow(key)`: refill, then consume one token when at
least one is available.  The `key` argument is ignored by the Go code. -/
def allow (capacity refillRate : ℚ) (_key : String) (now : ℚ) (b : Bucket) :
    Bool × Bucket :=
  let b' := refill capacity refillRate now b
  if b'.tokens ≥ 1 then
    (true, { tokens := b'.tokens - 1, lastRefill := b'.lastRefill })
  else
    (false, b')

/-- `(*TokenBucket).Available()`: refill, then report the token count.
The refill is persisted (the method mutates the bucket under the mutex). -/
def available (capacity refillRate now : ℚ) (b : Bucket) : ℚ × Bucket :=
  let b' := refill capacity refillRate now b
  (b'.tokens, b')

/-- `(*TokenBucket).Refill(key, tokens)`: adds without capping at capacity
and without touching `lastRefillTime`.  The `key` argument is ignored. -/
def refillTokens (_key : String) (amount : ℚ) (b : Bucket) : Bucket :=
  { tokens := b.tokens + amount, lastRefill := b.lastRefill }

end Memory

/-! ## Redis token bucket (pkg/ratelimit/redis, src/unnamed/part_005)

A bucket is a Redis hash with fields `tokens` and `last_refill`.  All
writes set `tokens`, so an existing key always has a `tokens` field; the
`last_refill` field can be absent (the `Refill` script uses `HSET` on
`tokens` only).  `ttl` records the argument of the most recent `EXPIRE`
issued for the key (`none` when no `EXPIRE` has been issued).  Each Lua
script runs atomically on the Redis server. -/

structure RedisKeyState where
  /-- `none` when the key is absent; otherwise `(tokens, last_refill?)`. -/
  fields : Option (ℚ × Option ℚ)
  /-- seconds argument of the most recent `EXPIRE` on this key. -/
  ttl : Option ℤ
  deriving DecidableEq, Repr

namespace Redis

/-- `math.ceil(capacity / refill_rate) + 1` — the idle-expiry argument. -/
def expireSeconds (capacity refillRate : ℚ) : ℤ :=
  ⌈capacity / refillRate⌉ + 1

/-- The `Allow` Lua script: load (defaulting `tokens` to capacity and
`last_refill` to `now`), natural refill suppressed at or above capacity,
consume one token when possible, `HMSET` both fields, `EXPIRE`. -/
def allowScript (capacity refillRate now : ℚ) (s : RedisKeyState) :
    Bool × RedisKeyState :=
  let tokens := match s.fields with
    | some (t, _) => t
    | none => capacity
  let lastRefill := match s.fields with
    | some (_, some l) => l
    | _ => now
  let elapsed := now - lastRefill
  let tokens := if tokens < capacity then
      let t := tokens + elapsed * refillRate
      if t > capacity then capacity else t
    else tokens
  if tokens ≥ 1 then
    (true, { fields := some (tokens - 1, some now),
             ttl := some (expireSeconds capacity refillRate) })
  else
    (false, { fields := some (tokens, some now),
              ttl := some (expireSeconds capacity refillRate) })

/-- The `Refill` Lua script: `HGET tokens` (defaulting to capacity), add
the amount with no cap, `HSET tokens`, `EXPIRE`.  The `last_refill` field
is not written, so it keeps its previous value (or stays absent). -/
def refillScript (capacity refillRate amount : ℚ) (s : RedisKeyState) :
    RedisKeyState :=
  let current := match s.fields with
    | some (t, _) => t
    | none => capacity
  { fields := some (current + amount,
      match s.fields with
      | some (_, l) => l
      | none => none),
    ttl := some (expireSeconds capacity refillRate) }

/-- The `Available` Lua script: returns capacity for an absent key, else
the token count with the natural refill computed on the fly when a
`last_refill` field exists and the bucket is below capacity.  The script
issues no write command at all (no `HMSET`, no `EXPIRE`), so the state is
returned unchanged. -/
def availableScript (capacity refillRate now : ℚ) (s : RedisKeyState) :
    ℚ × RedisKeyState :=
  match s.fields with
  | none => (capacity, s)
  | some (t, lastOpt) =>
    match lastOpt with
    | some l =>
      if t < capacity then
        let t2 := t + (now - l) * refillRate
        (if t2 > capacity then capacity else t2, s)
      else (t, s)
    | none => (t, s)

end Redis

/-! ## Trust tracker (src/pkg/trust/tracker.go)

The tracker state is the `payments` map, modelled as a total function
defaulting to `[]` (a missing Go map entry reads as a nil slice).
Timestamps are rational seconds; `ts.After(cutoff)` is the strict
comparison `cutoff < ts`.  The RW mutex makes each operation atomic. -/

structure TrustConfig where
  threshold : ℤ
  window : ℚ
  deriving DecidableEq, Repr

namespace Trust

/-- `trust.New`: defaults `Threshold` to 3 when non-positive and `Window`
to one hour (3600 s) when non-positive. -/
def new (cfg : TrustConfig) : TrustConfig :=
  { threshold := if cfg.threshold ≤ 0 then 3 else cfg.threshold,
    window := if cfg.window ≤ 0 then 3600 else cfg.window }

/-- The `payments` map: wallet address → payment timestamps. -/
def State := String → List ℚ

/-- `countRecent`: timestamps strictly after `now − window`. -/
def countRecent (cfg : TrustConfig) (now : ℚ) (st : State) (wallet : String) : ℕ :=
  ((st wallet).filter (fun ts => decide (now - cfg.window < ts))).length

/-- `IsTrusted`: recent count reaches the threshold. -/
def isTrusted (cfg : TrustConfig) (now : ℚ) (st : State) (wallet : String) : Bool :=
  cfg.threshold ≤ (countRecent cfg now st wallet : ℤ)

/-- `RecordSuccess`: append `now`, then `cleanup` filters out entries not
strictly after `now − window` (preserving order). -/
def recordSuccess (cfg : TrustConfig) (now : ℚ) (wallet : String) (st : State) :
    State :=
  fun w => if w = wallet then
      ((st wallet) ++ [now]).filter (fun ts => decide (now - cfg.window < ts))
    else st w

/-- `RecordFailure`: delete the wallet's entire record. -/
def recordFailure (wallet : String) (st : State) : State :=
  fun w => if w = wallet then [] else st w

/-- `RecentPayments`: exposes `countRecent`. -/
def recentPayments (cfg : TrustConfig) (now : ℚ) (st : State) (wallet : String) : ℕ :=
  countRecent cfg now st wallet

end Trust

/-! ## Settlement queue worker (src/cmd/server/settlement_queue.go)

One goroutine ranges over a FIFO channel.  We model an execution in which
`n` jobs are enqueued; `arrival i` is the time job `i` becomes available
on the channel and `duration i` the time `processSettlement` takes for it.
The worker receives job `i` once it is both enqueued and the worker is
free, sleeps the inter-settlement delay unless the job is the first since
start-up, then processes it.  The channel delivers jobs in enqueue order
(Go channels are FIFO and there is a single consumer). -/

structure JobSpec (α : Type) where
  payload : α
  arrival : ℚ
  duration : ℚ
  deriving DecidableEq, Repr

structure JobRun (α : Type) where
  job : JobSpec α
  start : ℚ
  done : ℚ
  deriving DecidableEq, Repr

namespace Queue

/-- The worker loop: `free` is the time the worker becomes idle again,
`first` the Go `first` flag (true only until the first job is taken). -/
def worker (delay : ℚ) {α : Type} :
    List (JobSpec α) → ℚ → Bool → List (JobRun α)
  | [], _, _ => []
  | j :: rest, free, first =>
    let start := max j.arrival free + (if first then 0 else delay)
    let done := start + j.duration
    { job := j, start := start, done := done } :: worker delay rest done false

end Queue

/-! ## Synchronous settlement branch of the admission pipeline
(src/unnamed/part_000, `hybridRateLimitPaymentMiddleware`, untrusted path)

Once verification succeeded and the payer is not trusted, the middleware
calls `ProcessSettlement` and branches on the result.  `ProcessSettlement`
is an external facilitator call, so its result is an input here.  The
in-memory `Refill` cannot fail, so the refill-error 500 branch is
unreachable in this model.  The trust tracker may be absent (`nil`) when
optimistic settlement is disabled. -/

structure SettleResult where
  success : Bool
  transaction : String
  errorReason : String
  deriving DecidableEq, Repr

inductive Outcome where
  /-- `c.Next()`: forward to the protected handler. -/
  | forward : Outcome
  /-- 402 JSON response with the given error and reason strings. -/
  | paymentRequired (error reason : String) : Outcome
  deriving DecidableEq, Repr

namespace Pipeline

/-- The synchronous branch: on settlement success refill by exactly
`capacity` and record a trust success, then forward; on failure respond
402 with the settlement error and leave bucket and trust untouched. -/
def syncSettleBranch (capacity : ℚ) (key walletAddr : String)
    (cfg : TrustConfig) (now : ℚ) (settleResult : SettleResult)
    (b : Bucket) (tracker : Option Trust.State) :
    Outcome × Bucket × Option Trust.State :=
  if settleResult.success then
    let b' := Memory.refillTokens key capacity b
    let tracker' := tracker.map (Trust.recordSuccess cfg now walletAddr)
    (Outcome.forward, b', tracker')
  else
    (Outcome.paymentRequired "Settlement failed" settleResult.errorReason,
      b, tracker)

end Pipeline

/-! ## Wallet extraction (src/unnamed/part_000, `extractWalletAddress`)

The payment header is base64-decoded (`base64.StdEncoding` first, then
`base64.URLEncoding`), parsed as JSON (`encoding/json`), and the
`payload.authorization.from` field is lowercased.  The two library calls
are embedded concretely: an RFC 4648 decoder (padded, strict alphabet,
ignoring CR and LF as Go does, tolerating non-zero trailing padding bits
as Go's non-Strict encodings do) and a JSON reader reproducing
`json.Unmarshal`'s behavior on the target struct (case-insensitive key
match, later duplicate keys decoded into the same field, `null` leaving
the field untouched, any type mismatch or syntax error failing the whole
`Unmarshal`).  Decoded bytes are mapped to characters code-point-wise;
wallet addresses are ASCII so this is faithful on the relevant inputs. -/

namespace Extract

/-- Value of one base64 alphabet character (`url` selects `-_` over `+/`). -/
def b64Val (url : Bool) (c : Char) : Option ℕ :=
  if 'A' ≤ c ∧ c ≤ 'Z' then some (c.toNat - 65)
  else if 'a' ≤ c ∧ c ≤ 'z' then some (c.toNat - 97 + 26)
  else if '0' ≤ c ∧ c ≤ '9' then some (c.toNat - 48 + 52)
  else if url = false ∧ c = '+' then some 62
  else if url = false ∧ c = '/' then some 63
  else if url = true ∧ c = '-' then some 62
  else if url = true ∧ c = '_' then some 63
  else none

/-- Decode padded base64 quanta of four characters into bytes. -/
def b64Quanta (url : Bool) : List Char → Option (List ℕ)
  | [] => some []
  | c1 :: c2 :: c3 :: c4 :: rest =>
    match b64Val url c1, b64Val url c2 with
    | some v1, some v2 =>
      if c3 = '=' then
        if c4 = '=' ∧ rest = [] then some [v1 * 4 + v2 / 16] else none
      else
        match b64Val url c3 with
        | some v3 =>
          if c4 = '=' then
            if rest = [] then some [v1 * 4 + v2 / 16, v2 % 16 * 16 + v3 / 4]
            else none
          else
            match b64Val url c4 with
            | some v4 =>
              match b64Quanta url rest with
              | some bs =>
                some ((v1 * 4 + v2 / 16) :: (v2 % 16 * 16 + v3 / 4) ::
                  (v3 % 4 * 64 + v4) :: bs)
              | none => none
            | none => none
        | none => none
    | _, _ => none
  | _ => none

/-- `base64.StdEncoding.DecodeString` (`url = false`) and
`base64.URLEncoding.DecodeString` (`url = true`): CR and LF are ignored,
everything else must be alphabet characters in padded 4-character quanta. -/
def base64Decode (url : Bool) (s : String) : Option (List ℕ) :=
  b64Quanta url (s.data.filter (fun c => c ≠ '\r' ∧ c ≠ '\n'))

/-- JSON values.  Numeric lexemes are validated but their value is never
consumed by the extraction path, so it is not retained. -/
inductive JVal where
  | jnull : JVal
  | jbool (b : Bool) : JVal
  | jnum : JVal
  | jstr (s : String) : JVal
  | jarr (elems : List JVal) : JVal
  | jobj (entries : List (String × JVal)) : JVal
  deriving Repr

def lbrace : Char := Char.ofNat 123

def rbrace : Char := Char.ofNat 125

def isWs (c : Char) : Bool := c = ' ' ∨ c = '\t' ∨ c = '\n' ∨ c = '\r'

def skipWs : List Char → List Char
  | [] => []
  | c :: rest => if isWs c then skipWs rest else c :: rest

def isDigit (c : Char) : Bool := '0' ≤ c ∧ c ≤ '9'

def hexVal (c : Char) : Option ℕ :=
  if '0' ≤ c ∧ c ≤ '9' then some (c.toNat - 48)
  else if 'a' ≤ c ∧ c ≤ 'f' then some (c.toNat - 97 + 10)
  else if 'A' ≤ c ∧ c ≤ 'F' then some (c.toNat - 65 + 10)
  else none

/-- Single-character escapes accepted after a backslash. -/
def escChar (c : Char) : Option Char :=
  if c = '"' then some '"'
  else if c = '\\' then some '\\'
  else if c = '/' then some '/'
  else if c = 'b' then some (Char.ofNat 8)
  else if c = 'f' then some (Char.ofNat 12)
  else if c = 'n' then some '\n'
  else if c = 'r' then some '\r'
  else if c = 't' then some '\t'
  else none

/-- Characters of a JSON string after the opening quote, up to and
consuming the closing quote. -/
def parseStrChars : ℕ → List Char → Option (List Char × List Char)
  | 0, _ => none
  | _, [] => none
  | fuel + 1, c :: rest =>
    if c = '"' then some ([], rest)
    else if c = '\\' then
      match rest with
      | [] => none
      | e :: rest2 =>
        if e = 'u' then
          match rest2 with
          | h1 :: h2 :: h3 :: h4 :: rest3 =>
            match hexVal h1, hexVal h2, hexVal h3, hexVal h4 with
            | some a, some b, some c2, some d =>
              (parseStrChars fuel rest3).map
                (fun p => (Char.ofNat (a * 4096 + b * 256 + c2 * 16 + d) :: p.1, p.2))
            | _, _, _, _ => none
          | _ => none
        else
          match escChar e with
          | some ec => (parseStrChars fuel rest2).map (fun p => (ec :: p.1, p.2))
          | none => none
    else if c.toNat < 32 then none
    else (parseStrChars fuel rest).map (fun p => (c :: p.1, p.2))

/-- Longest digit run at the front. -/
def spanDigits : List Char → List Char × List Char
  | [] => ([], [])
  | c :: rest =>
    if isDigit c then
      let p := spanDigits rest
      (c :: p.1, p.2)
    else ([], c :: rest)

def parseFrac : List Char → Option (List Char)
  | '.' :: r =>
    match spanDigits r with
    | ([], _) => none
    | (_ :: _, r2) => some r2
  | cs => some cs

def parseExp : List Char → Option (List Char)
  | [] => some []
  | c :: r =>
    if c = 'e' ∨ c = 'E' then
      let r2 := match r with
        | s :: rr => if s = '+' ∨ s = '-' then rr else s :: rr
        | [] => []
      match spanDigits r2 with
      | ([], _) => none
      | (_ :: _, r3) => some r3
    else some (c :: r)

/-- A JSON number lexeme (RFC 8259 grammar, as Go's scanner enforces);
returns the remaining input. -/
def parseNumber (cs : List Char) : Option (List Char) :=
  let cs1 := match cs with
    | '-' :: r => r
    | _ => cs
  match cs1 with
  | [] => none
  | c :: rest =>
    if c = '0' then (parseFrac rest).bind parseExp
    else if isDigit c then
      (parseFrac (spanDigits rest).2).bind parseExp
    else none

mutual

/-- One JSON value, leading whitespace allowed. -/
def parseValue : ℕ → List Char → Option (JVal × List Char)
  | 0, _ => none
  | fuel + 1, cs =>
    match skipWs cs with
    | [] => none
    | c :: rest =>
      if c = '"' then
        (parseStrChars (rest.length + 1) rest).map
          (fun p => (JVal.jstr (String.mk p.1), p.2))
      else if c = 't' then
        match rest with
        | 'r' :: 'u' :: 'e' :: r => some (JVal.jbool true, r)
        | _ => none
      else if c = 'f' then
        match rest with
        | 'a' :: 'l' :: 's' :: 'e' :: r => some (JVal.jbool false, r)
        | _ => none
      else if c = 'n' then
        match rest with
        | 'u' :: 'l' :: 'l' :: r => some (JVal.jnull, r)
        | _ => none
      else if c = lbrace then
        match skipWs rest with
        | c2 :: r2 =>
          if c2 = rbrace then some (JVal.jobj [], r2)
          else
            (parseMembers fuel (c2 :: r2)).map (fun p => (JVal.jobj p.1, p.2))
        | [] => none
      else if c = '[' then
        match skipWs rest with
        | c2 :: r2 =>
          if c2 = ']' then some (JVal.jarr [], r2)
          else (parseElems fuel (c2 :: r2)).map (fun p => (JVal.jarr p.1, p.2))
        | [] => none
      else
        (parseNumber (c :: rest)).map (fun r => (JVal.jnum, r))

/-- Non-empty object member list, up to and consuming the closing brace. -/
def parseMembers : ℕ → List Char → Option (List (String × JVal) × List Char)
  | 0, _ => none
  | fuel + 1, cs =>
    match skipWs cs with
    | '"' :: rest =>
      match parseStrChars (rest.length + 1) rest with
      | some (keyChars, r1) =>
        match skipWs r1 with
        | ':' :: r2 =>
          match parseValue fuel r2 with
          | some (v, r3) =>
            match skipWs r3 with
            | ',' :: r4 =>
              (parseMembers fuel r4).map
                (fun p => ((String.mk keyChars, v) :: p.1, p.2))
            | c :: r4 =>
              if c = rbrace then some ([(String.mk keyChars, v)], r4) else none
            | [] => none
          | none => none
        | _ => none
      | none => none
    | _ => none

/-- Non-empty array element list, up to and consuming the closing bracket. -/
def parseElems : ℕ → List Char → Option (List JVal × List Char)
  | 0, _ => none
  | fuel + 1, cs =>
    match parseValue fuel cs with
    | some (v, r1) =>
      match skipWs r1 with
      | ',' :: r2 => (parseElems fuel r2).map (fun p => (v :: p.1, p.2))
      | ']' :: r2 => some ([v], r2)
      | _ => none
    | none => none

end

/-- `json.Unmarshal`'s syntactic phase: exactly one value, with only
whitespace around it. -/
def parseJson (bytes : List ℕ) : Option JVal :=
  let cs := bytes.map (fun b => Char.ofNat b)
  match parseValue (cs.length + 1) cs with
  | some (v, rest) => if skipWs rest = [] then some v else none
  | none => none

/-- ASCII lowercasing (`strings.ToLower` restricted to ASCII, which is
all a wallet address or a JSON field tag contains). -/
def lowerChar (c : Char) : Char :=
  if 'A' ≤ c ∧ c ≤ 'Z' then Char.ofNat (c.toNat + 32) else c

def lowerStr (s : String) : String := String.mk (s.data.map lowerChar)

/-- Go matches an object key to a struct field tag case-insensitively. -/
def keyMatches (key target : String) : Bool := lowerStr key = lowerStr target

/-- Decoding a JSON value into the `From string` field: `null` keeps the
current value, a string replaces it, anything else is a type error. -/
def decodeFrom (v : JVal) (cur : String) : Option String :=
  match v with
  | JVal.jnull => some cur
  | JVal.jstr s => some s
  | _ => none

/-- Decoding into the `Authorization` struct: every key matching `from`
is decoded into the field, in document order. -/
def decodeAuth (v : JVal) (cur : String) : Option String :=
  match v with
  | JVal.jnull => some cur
  | JVal.jobj entries =>
    entries.foldl
      (fun acc e => acc.bind
        (fun c => if keyMatches e.1 "from" then decodeFrom e.2 c else some c))
      (some cur)
  | _ => none

/-- Decoding into the `Payload` struct. -/
def decodePayload (v : JVal) (cur : String) : Option String :=
  match v with
  | JVal.jnull => some cur
  | JVal.jobj entries =>
    entries.foldl
      (fun acc e => acc.bind
        (fun c =>
          if keyMatches e.1 "authorization" then decodeAuth e.2 c else some c))
      (some cur)
  | _ => none

/-- `json.Unmarshal(decoded, &payment)` projected to the one field the
code reads: returns the final `payment.Payload.Authorization.From`, or
`none` when `Unmarshal` would return an error. -/
def unmarshalPayment (v : JVal) : Option String :=
  match v with
  | JVal.jnull => some ""
  | JVal.jobj entries =>
    entries.foldl
      (fun acc e => acc.bind
        (fun c =>
          if keyMatches e.1 "payload" then decodePayload e.2 c else some c))
      (some "")
  | _ => none

/-- The part of `extractWalletAddress` after a successful base64 decode. -/
def afterDecode (decoded : List ℕ) : String :=
  match parseJson decoded with
  | none => ""
  | some j =>
    match unmarshalPayment j with
    | none => ""
    | some fromAddr => lowerStr fromAddr

/-- `extractWalletAddress`: empty header short-circuits; standard base64
first, URL-safe on failure; decode/parse failure yields the empty payer
id; otherwise the lowercased `payload.authorization.from`. -/
def extractWalletAddress (header : String) : String :=
  if header = "" then ""
  else
    match base64Decode false header with
    | some decoded => afterDecode decoded
    | none =>
      match base64Decode true header with
      | some decoded => afterDecode decoded
      | none => ""

end Extract

/-! ## Operation sequences over one bucket

`LimOp` is a trace of `Allow`/`Refill` calls on a single client key, each
`Allow` tagged with the caller-side time.  `memRun`/`redisRun` execute the
trace against the in-memory bucket and against the Redis key state; the
list of `Allow` results is the observable output. -/

inductive LimOp where
  | opAllow (now : ℚ) : LimOp
  | opRefill (amount : ℚ) : LimOp
  deriving DecidableEq, Repr

def memRun (cap rate : ℚ) (key : String) :
    List LimOp → Bucket → List Bool × Bucket
  | [], b => ([], b)
  | LimOp.opAllow now :: ops, b =>
    let r := Memory.allow cap rate key now b
    let rest := memRun cap rate key ops r.2
    (r.1 :: rest.1, rest.2)
  | LimOp.opRefill n :: ops, b =>
    memRun cap rate key ops (Memory.refillTokens key n b)

def redisRun (cap rate : ℚ) :
    List LimOp → RedisKeyState → List Bool × RedisKeyState
  | [], s => ([], s)
  | LimOp.opAllow now :: ops, s =>
    let r := Redis.allowScript cap rate now s
    let rest := redisRun cap rate ops r.2
    (r.1 :: rest.1, rest.2)
  | LimOp.opRefill n :: ops, s =>
    redisRun cap rate ops (Redis.refillScript cap rate n s)

/-- Simulation relation between an in-memory bucket and a Redis key
state: either the hash mirrors the bucket exactly, or the key is absent
and the bucket is at capacity, or the `last_refill` field is absent (a
`Refill` touched a fresh key first) and the bucket is at or above
capacity, where the elapsed interval is discarded by both sides anyway. -/
def Rel (cap : ℚ) (b : Bucket) (s : RedisKeyState) : Prop :=
  s.fields = some (b.tokens, some b.lastRefill) ∨
  (s.fields = none ∧ b.tokens = cap) ∨
  (s.fields = some (b.tokens, none) ∧ cap ≤ b.tokens)

/-! ## Per-key Redis store

The remote limiter addresses the shared store at `keyPrefix + key`
(default prefix `ratelimit:`).  The store maps full Redis keys to key
states; each operation runs its script against one key's state. -/

def RStore := String → RedisKeyState

namespace Redis

def storeAllow (cap rate : ℚ) (keyPref key : String) (now : ℚ) (s : RStore) :
    Bool × RStore :=
  let fk := keyPref ++ key
  let r := allowScript cap rate now (s fk)
  (r.1, fun k => if k = fk then r.2 else s k)

def storeRefill (cap rate : ℚ) (keyPref key : String) (amount : ℚ)
    (s : RStore) : RStore :=
  let fk := keyPref ++ key
  fun k => if k = fk then refillScript cap rate amount (s fk) else s k

/-- The `Available` script writes nothing, so the store is unchanged. -/
def storeAvailable (cap rate : ℚ) (keyPref key : String) (now : ℚ)
    (s : RStore) : ℚ × RStore :=
  let fk := keyPref ++ key
  ((availableScript cap rate now (s fk)).1, s)

end Redis

/-! ## Helper lemmas -/

/-- Go's add-then-clamp equals the spec's `min` formulation. -/
lemma Memory.refill_eq (cap rate now : ℚ) (b : Bucket) :
    Memory.refill cap rate now b =
      { tokens := if b.tokens < cap then
          min cap (b.tokens + (now - b.lastRefill) * rate) else b.tokens,
        lastRefill := now } := by
  unfold Memory.refill
  split_ifs with h
  · simp only [Bucket.mk.injEq, and_true]
    rcases le_or_lt (b.tokens + (now - b.lastRefill) * rate) cap with h2 | h2
    · rw [if_neg (not_lt.mpr h2), min_eq_right h2]
    · rw [if_pos h2, min_eq_left h2.le]
  · rfl

/-- A bucket at or below capacity whose clock is current is unchanged by
the natural refill. -/
lemma Memory.refill_now_self (cap rate t now : ℚ) (ht : t ≤ cap) :
    Memory.refill cap rate now ⟨t, now⟩ = ⟨t, now⟩ := by
  rw [Memory.refill_eq]
  simp only [Bucket.mk.injEq, and_true]
  split_ifs with h
  · simp [min_eq_right ht]
  · rfl

/-- `Allow` at the bucket's own clock instant, at or below capacity. -/
lemma Memory.allow_now (cap rate : ℚ) (key : String) (t now : ℚ)
    (ht : t ≤ cap) :
    Memory.allow cap rate key now ⟨t, now⟩ =
      if 1 ≤ t then (true, ⟨t - 1, now⟩) else (false, ⟨t, now⟩) := by
  unfold Memory.allow
  rw [Memory.refill_now_self cap rate t now ht]

/-- Running `m` same-instant `Allow`s against a bucket holding a whole
number `j ≤ cap` of tokens admits the first `j` and denies the rest. -/
lemma memRun_allows (cap : ℕ) (rate now : ℚ) (key : String) :
    ∀ (m j : ℕ), j ≤ cap →
      memRun (cap : ℚ) rate key (List.replicate m (LimOp.opAllow now))
          ⟨(j : ℚ), now⟩ =
        (List.replicate (min m j) true ++ List.replicate (m - j) false,
          ⟨((j - m : ℕ) : ℚ), now⟩) := by
  intro m
  induction m with
  | zero => intro j hj; simp [memRun]
  | succ m ih =>
    intro j hj
    rw [List.replicate_succ]
    cases j with
    | zero =>
      have h0 : Memory.allow (cap : ℚ) rate key now ⟨((0 : ℕ) : ℚ), now⟩ =
          (false, ⟨((0 : ℕ) : ℚ), now⟩) := by
        rw [Memory.allow_now _ _ _ _ _ (by exact_mod_cast hj)]
        rw [if_neg (by norm_num)]
      simp only [memRun, h0]
      rw [ih 0 (Nat.zero_le _)]
      simp [List.replicate_succ]
    | succ j' =>
      have hj' : j' ≤ cap := le_trans (Nat.le_succ _) hj
      have hsub : ((j'.succ : ℕ) : ℚ) - 1 = ((j' : ℕ) : ℚ) := by
        push_cast; ring
      have h1 : Memory.allow (cap : ℚ) rate key now ⟨((j'.succ : ℕ) : ℚ), now⟩ =
          (true, ⟨((j' : ℕ) : ℚ), now⟩) := by
        rw [Memory.allow_now _ _ _ _ _ (by exact_mod_cast hj)]
        rw [if_pos (by exact_mod_cast Nat.succ_le_succ (Nat.zero_le j')), hsub]
      simp only [memRun, h1]
      rw [ih j' hj']
      simp [Nat.succ_min_succ, Nat.succ_sub_succ, List.replicate_succ]

/-- One `Allow` step preserves the simulation and agrees observably. -/
lemma rel_allow (cap rate now : ℚ) (key : String) (b : Bucket)
    (s : RedisKeyState) (h : Rel cap b s) :
    (Memory.allow cap rate key now b).1 = (Redis.allowScript cap rate now s).1 ∧
      Rel cap (Memory.allow cap rate key now b).2
        (Redis.allowScript cap rate now s).2 := by
  rcases h with h | ⟨h, ht⟩ | ⟨h, ht⟩
  · simp only [Memory.allow, Memory.refill, Redis.allowScript, h]
    split_ifs <;> simp_all [Rel]
  · simp only [Memory.allow, Memory.refill, Redis.allowScript, h, ht]
    split_ifs <;> simp_all [Rel]
  · have ht' : ¬ b.tokens < cap := not_lt.mpr ht
    simp only [Memory.allow, Memory.refill, Redis.allowScript, h, ht']
    split_ifs <;> simp_all [Rel]

/-- One `Refill` step preserves the simulation (non-negative amounts). -/
lemma rel_refill (cap rate n : ℚ) (key : String) (b : Bucket)
    (s : RedisKeyState) (hn : 0 ≤ n) (h : Rel cap b s) :
    Rel cap (Memory.refillTokens key n b) (Redis.refillScript cap rate n s) := by
  rcases h with h | ⟨h, ht⟩ | ⟨h, ht⟩
  · simp [Memory.refillTokens, Redis.refillScript, h, Rel]
  · right; right
    constructor
    · simp [Memory.refillTokens, Redis.refillScript, h, ht]
    · simp only [Memory.refillTokens, ht]
      linarith
  · right; right
    constructor
    · simp [Memory.refillTokens, Redis.refillScript, h]
    · simp only [Memory.refillTokens]
      linarith

/-- Trace simulation: Allow/Refill traces with non-negative refill
amounts produce identical permit decisions on both back-ends. -/
lemma rel_run (cap rate : ℚ) (key : String) :
    ∀ (ops : List LimOp) (b : Bucket) (s : RedisKeyState),
      Rel cap b s → (∀ n, LimOp.opRefill n ∈ ops → 0 ≤ n) →
      (memRun cap rate key ops b).1 = (redisRun cap rate ops s).1 := by
  intro ops
  induction ops with
  | nil => intro b s _ _; simp [memRun, redisRun]
  | cons op rest ih =>
    intro b s hrel hamt
    cases op with
    | opAllow now =>
      obtain ⟨hout, hrel'⟩ := rel_allow cap rate now key b s hrel
      simp only [memRun, redisRun]
      rw [hout, ih _ _ hrel' (fun n hn => hamt n (List.mem_cons_of_mem _ hn))]
    | opRefill n =>
      have hn : 0 ≤ n := hamt n (List.mem_cons_self _ _)
      simp only [memRun, redisRun]
      exact ih _ _ (rel_refill cap rate n key b s hn hrel)
        (fun n' hn' => hamt n' (List.mem_cons_of_mem _ hn'))

/-- `RecordSuccess` at a time not later than the query time adds one to
the recent count when the recorded time is within the window, and never
removes anything that still counts. -/
lemma countRecent_recordSuccess (cfg : TrustConfig) (now t : ℚ)
    (w : String) (st : Trust.State) (htn : t ≤ now) :
    Trust.countRecent cfg now (Trust.recordSuccess cfg t w st) w =
      Trust.countRecent cfg now st w +
        (if now - cfg.window < t then 1 else 0) := by
  have hw : Trust.recordSuccess cfg t w st w =
      (st w ++ [t]).filter (fun ts => decide (t - cfg.window < ts)) := by
    simp [Trust.recordSuccess]
  unfold Trust.countRecent
  rw [hw, List.filter_filter]
  have hcong : ∀ x ∈ st w ++ [t],
      (decide (now - cfg.window < x) && decide (t - cfg.window < x)) =
        decide (now - cfg.window < x) := by
    intro x _
    by_cases hx : now - cfg.window < x
    · have : t - cfg.window < x := by linarith
      simp [hx, this]
    · simp [hx]
  rw [List.filter_congr hcong, List.filter_append, List.length_append]
  simp only [List.filter_cons, List.filter_nil]
  by_cases h : now - cfg.window < t
  · simp [h]
  · simp [h]

/-- Folding a batch of `RecordSuccess` calls (all at or before the query
time) adds exactly the number of in-window timestamps to the count. -/
lemma countRecent_fold (cfg : TrustConfig) (now : ℚ) (w : String) :
    ∀ (ts : List ℚ) (st : Trust.State), (∀ t ∈ ts, t ≤ now) →
      Trust.countRecent cfg now
          (ts.foldl (fun s t => Trust.recordSuccess cfg t w s) st) w =
        Trust.countRecent cfg now st w +
          ts.countP (fun t => decide (now - cfg.window < t)) := by
  intro ts
  induction ts with
  | nil => intro st _; simp
  | cons t rest ih =>
    intro st hts
    simp only [List.foldl_cons]
    rw [ih _ (fun x hx => hts x (List.mem_cons_of_mem _ hx))]
    rw [countRecent_recordSuccess cfg now t w st (hts t (List.mem_cons_self _ _))]
    rw [List.countP_cons]
    by_cases h : now - cfg.window < t
    · simp [h]; omega
    · simp [h]

/-- The worker processes jobs in channel order. -/
lemma worker_map_job (delay : ℚ) {α : Type} :
    ∀ (jobs : List (JobSpec α)) (free : ℚ) (first : Bool),
      (Queue.worker delay jobs free first).map JobRun.job = jobs := by
  intro jobs
  induction jobs with
  | nil => intro free first; simp [Queue.worker]
  | cons j rest ih => intro free first; simp [Queue.worker, ih]

/-- Adjacent runs: each non-first settlement starts exactly `delay` after
the later of its arrival and the previous completion. -/
lemma worker_chain (delay : ℚ) {α : Type} :
    ∀ (jobs : List (JobSpec α)) (free : ℚ) (first : Bool),
      List.Chain'
        (fun x y => y.start = max y.job.arrival x.done + delay ∧
          x.done + delay ≤ y.start)
        (Queue.worker delay jobs free first) := by
  intro jobs
  induction jobs with
  | nil => intro free first; simp [Queue.worker]
  | cons j rest ih =>
    intro free first
    cases rest with
    | nil => simp [Queue.worker]
    | cons j2 rest2 =>
      simp only [Queue.worker]
      rw [List.chain'_cons]
      refine ⟨⟨by simp, ?_⟩, ih _ _⟩
      simp only [if_neg]
      exact add_le_add_right (le_max_right _ _) _

/-- Tokens stay at or below capacity across a natural refill. -/
lemma Memory.refill_tokens_le (cap rate now : ℚ) (b : Bucket)
    (h : b.tokens ≤ cap) : (Memory.refill cap rate now b).tokens ≤ cap := by
  rw [Memory.refill_eq]
  dsimp only
  split_ifs with h1
  · exact min_le_left _ _
  · exact h

/-! ## Claims -/

/-- Claim C1 (corrected).  The natural-refill rule — with Δ = now −
last_refill, if tokens < capacity then tokens becomes min(capacity,
tokens + Δ·refill_rate), else tokens is unchanged, and last_refill is set
to now — is applied by `Allow` and by the in-memory `Available`, so an
elapsed interval spent at or above capacity is consumed and can never
later be converted into tokens.  `Refill`, however, applies no natural
refill at all: the in-memory `Refill` adds the amount leaving
`lastRefillTime` untouched, and the Redis `Refill` script writes only the
`tokens` field, preserving (or leaving absent) `last_refill`. -/
theorem c1_natural_refill_scope :
    (∀ (cap rate now : ℚ) (b : Bucket),
      Memory.refill cap rate now b =
        { tokens := if b.tokens < cap then
            min cap (b.tokens + (now - b.lastRefill) * rate) else b.tokens,
          lastRefill := now }) ∧
    (∀ (cap rate now : ℚ) (key : String) (b : Bucket),
      (Memory.allow cap rate key now b).2.lastRefill = now ∧
      (Memory.available cap rate now b).2 = Memory.refill cap rate now b) ∧
    (∀ (key : String) (n : ℚ) (b : Bucket),
      Memory.refillTokens key n b =
        { tokens := b.tokens + n, lastRefill := b.lastRefill }) ∧
    (∀ (cap rate n t : ℚ) (l : Option ℚ) (tv : Option ℤ),
      (Redis.refillScript cap rate n ⟨some (t, l), tv⟩).fields =
        some (t + n, l)) ∧
    (∀ (cap rate t1 t2 : ℚ) (b : Bucket), cap ≤ b.tokens →
      (Memory.refill cap rate t2 (Memory.refill cap rate t1 b)).tokens =
        b.tokens) := by
  refine ⟨Memory.refill_eq, ?_, fun _ _ _ => rfl,
    fun cap rate n t l tv => by simp [Redis.refillScript], ?_⟩
  · intro cap rate now key b
    refine ⟨?_, rfl⟩
    simp only [Memory.allow]
    split_ifs <;> simp [Memory.refill_eq]
  · intro cap rate t1 t2 b h
    have h1 : ¬ b.tokens < cap := not_lt.mpr h
    rw [Memory.refill_eq, Memory.refill_eq]
    simp [h1]

/-- Witness for C1: a bucket above capacity (tokens 5, capacity 4) keeps
exactly its 5 tokens across two successive natural refills. -/
theorem c1_natural_refill_scope_witness :
    (4 : ℚ) ≤ (Bucket.mk 5 0).tokens ∧
      (Memory.refill 4 4 2 (Memory.refill 4 4 1 ⟨5, 0⟩)).tokens =
        (Bucket.mk 5 0).tokens :=
  ⟨by norm_num, c1_natural_refill_scope.2.2.2.2 4 4 1 2 ⟨5, 0⟩ (by norm_num)⟩

/-- Counterexample for C1 as stated: the claim demands that `Refill`
also applies the natural refill and sets `last_refill := now`.  With
capacity 4, rate 4, bucket (tokens 2, last_refill 0) and a `Refill` of
amount 0 issued at now = 1, the claim predicts tokens
min(4, 2 + 1·4) + 0 = 4 and last_refill 1; the code leaves the bucket at
(2, 0). -/
theorem c1_counterexample :
    Memory.refillTokens "client" 0 { tokens := 2, lastRefill := 0 } ≠
      { tokens := min 4 (2 + (1 - 0) * 4) + 0, lastRefill := 1 } := by
  intro h
  have h2 := congrArg Bucket.lastRefill h
  simp only [Memory.refillTokens] at h2
  norm_num at h2

/-- Claim C2 (confirmed).  `Allow` applies the natural refill and then
consumes exactly one token iff at least one is available (never more,
never a fraction), so a burst of capacity + k same-instant `Allow`s on a
full bucket admits exactly the first capacity requests — on both the
in-memory and the Redis back-end. -/
theorem c2_allow_consumes_one_burst :
    (∀ (cap rate now : ℚ) (key : String) (b : Bucket),
      (Memory.allow cap rate key now b).2.tokens =
        (Memory.refill cap rate now b).tokens -
          (if (Memory.allow cap rate key now b).1 then 1 else 0) ∧
      ((Memory.allow cap rate key now b).1 = true ↔
        1 ≤ (Memory.refill cap rate now b).tokens)) ∧
    (∀ (cap k : ℕ) (rate now : ℚ) (key : String),
      memRun (cap : ℚ) rate key
          (List.replicate (cap + k) (LimOp.opAllow now))
          (Memory.newTokenBucket (cap : ℚ) now) =
        (List.replicate cap true ++ List.replicate k false, ⟨0, now⟩) ∧
      (redisRun (cap : ℚ) rate
          (List.replicate (cap + k) (LimOp.opAllow now))
          ⟨none, none⟩).1 =
        List.replicate cap true ++ List.replicate k false) := by
  constructor
  · intro cap rate now key b
    by_cases h : (Memory.refill cap rate now b).tokens ≥ 1
    · simp [Memory.allow, h]
    · simp [Memory.allow, h]
  · intro cap k rate now key
    have h1 : memRun (cap : ℚ) rate key
        (List.replicate (cap + k) (LimOp.opAllow now))
        (Memory.newTokenBucket (cap : ℚ) now) =
        (List.replicate cap true ++ List.replicate k false, ⟨0, now⟩) := by
      have hmem := memRun_allows cap rate now key (cap + k) cap le_rfl
      unfold Memory.newTokenBucket
      rw [hmem]
      simp [min_eq_right (Nat.le_add_right cap k),
        Nat.sub_eq_zero_of_le (Nat.le_add_right cap k)]
    refine ⟨h1, ?_⟩
    have hrel : Rel (cap : ℚ) (Memory.newTokenBucket (cap : ℚ) now)
        ⟨none, none⟩ := Or.inr (Or.inl ⟨rfl, rfl⟩)
    have hamts : ∀ n, LimOp.opRefill n ∈
        List.replicate (cap + k) (LimOp.opAllow now) → 0 ≤ n := by
      intro n hn
      have := List.eq_of_mem_replicate hn
      simp at this
    rw [← rel_run (cap : ℚ) rate key _ _ _ hrel hamts, h1]

/-- Claim C3 (corrected).  `Refill(key, n)` adds exactly n with no cap at
capacity on both back-ends, and natural refill plus `Allow` keep an
in-memory bucket at or below capacity (paid refill is the sole path
above it).  For the in-memory limiter, an `Available` sampled within ε
after the refill lies in [prior + n, prior + n + ε·refill_rate], prior
being the `Available` sampled just before.  (The Redis back-end violates
that interval: see the counterexample.) -/
theorem c3_refill_adds_exactly
    (cap rate n eps t0 t2 : ℚ) (key : String) (b : Bucket)
    (hrate : 0 ≤ rate) (_hn : 0 ≤ n) (h02 : t0 ≤ t2) (h2e : t2 ≤ t0 + eps) :
    (∀ (key' : String) (m : ℚ) (b' : Bucket),
      Memory.refillTokens key' m b' = ⟨b'.tokens + m, b'.lastRefill⟩) ∧
    (∀ (m t : ℚ) (l : Option ℚ) (tv : Option ℤ),
      (Redis.refillScript cap rate m ⟨some (t, l), tv⟩).fields =
        some (t + m, l)) ∧
    (∀ (now' : ℚ) (b' : Bucket), b'.tokens ≤ cap →
      (Memory.allow cap rate key now' b').2.tokens ≤ cap ∧
      (Memory.available cap rate now' b').2.tokens ≤ cap) ∧
    ((Memory.available cap rate t0 b).1 + n ≤
        (Memory.available cap rate t2
          (Memory.refillTokens key n (Memory.available cap rate t0 b).2)).1 ∧
      (Memory.available cap rate t2
          (Memory.refillTokens key n (Memory.available cap rate t0 b).2)).1 ≤
        (Memory.available cap rate t0 b).1 + n + eps * rate) := by
  refine ⟨fun _ _ _ => rfl,
    fun m t l tv => by simp [Redis.refillScript], ?_, ?_⟩
  · intro now' b' hb
    have hr : (Memory.refill cap rate now' b').tokens ≤ cap :=
      Memory.refill_tokens_le cap rate now' b' hb
    constructor
    · simp only [Memory.allow]
      split_ifs with h2 <;> dsimp <;> linarith
    · exact hr
  · obtain ⟨P, hPdef⟩ : ∃ P, Memory.available cap rate t0 b = (P, ⟨P, t0⟩) := by
      refine ⟨(Memory.refill cap rate t0 b).tokens, ?_⟩
      unfold Memory.available
      rw [Memory.refill_eq]
    rw [hPdef]
    have hb1 : Memory.refillTokens key n ⟨P, t0⟩ = ⟨P + n, t0⟩ := rfl
    rw [hb1]
    unfold Memory.available
    rw [Memory.refill_eq]
    dsimp only
    split_ifs with h
    · constructor
      · refine le_min h.le ?_
        have : 0 ≤ (t2 - t0) * rate := mul_nonneg (by linarith) hrate
        linarith
      · have hle : min cap (P + n + (t2 - t0) * rate) ≤
            P + n + (t2 - t0) * rate := min_le_right _ _
        have : (t2 - t0) * rate ≤ eps * rate :=
          mul_le_mul_of_nonneg_right (by linarith) hrate
        linarith
    · constructor
      · linarith
      · have h0e : (0 : ℚ) ≤ eps := by linarith
        have : 0 ≤ eps * rate := mul_nonneg h0e hrate
        linarith

/-- Witness for C3: capacity 4, rate 4, a full bucket, refill of 1
sampled immediately (ε = 0): Available moves from 4 to exactly 5. -/
theorem c3_refill_adds_exactly_witness :
    ((0 : ℚ) ≤ 4 ∧ (0 : ℚ) ≤ 1 ∧ (0 : ℚ) ≤ 0) ∧
      (Memory.available 4 4 0 ⟨4, 0⟩).1 + 1 ≤
        (Memory.available 4 4 0
          (Memory.refillTokens "c" 1 (Memory.available 4 4 0 ⟨4, 0⟩).2)).1 :=
  ⟨⟨by norm_num, by norm_num, by norm_num⟩,
    (c3_refill_adds_exactly 4 4 1 0 0 0 "c" ⟨4, 0⟩ (by norm_num) (by norm_num)
      (by norm_num) (by norm_num)).2.2.2.1⟩

/-- Counterexample for C3 as stated: on the Redis back-end (capacity 4,
rate 4, stored state tokens 2, last_refill 0), `Available` at time 1
reports prior = 4, but the `Refill` script adds to the raw stored 2
tokens, so `Available` immediately afterwards (same time 1, ε = 0)
reports 4 < prior + 1 = 5 — below the claimed interval. -/
theorem c3_counterexample :
    (Redis.availableScript 4 4 1 ⟨some (2, some 0), none⟩).1 = 4 ∧
    (Redis.availableScript 4 4 1
        (Redis.refillScript 4 4 1 ⟨some (2, some 0), none⟩)).1 = 4 ∧
    ¬ ((Redis.availableScript 4 4 1 ⟨some (2, some 0), none⟩).1 + 1 ≤
        (Redis.availableScript 4 4 1
          (Redis.refillScript 4 4 1 ⟨some (2, some 0), none⟩)).1) := by
  norm_num [Redis.availableScript, Redis.refillScript]

/-- Claim C4 (corrected).  For traces of `Allow` and `Refill` operations
on a single key (non-negative refill amounts), the in-memory bucket
(started at creation, i.e. full) and the Redis key (initially absent)
return identical permit decisions.  Full observable equivalence as
claimed fails: the in-memory `Available` persists the natural refill
while the Redis `Available` script is read-only, and the in-memory
limiter shares one bucket across all keys. -/
theorem c4_backend_equivalence (cap rate t0 : ℚ) (key : String)
    (ops : List LimOp) (h : ∀ n, LimOp.opRefill n ∈ ops → 0 ≤ n) :
    (memRun cap rate key ops (Memory.newTokenBucket cap t0)).1 =
      (redisRun cap rate ops ⟨none, none⟩).1 :=
  rel_run cap rate key ops _ _ (Or.inr (Or.inl ⟨rfl, rfl⟩)) h

/-- Witness for C4: a concrete Allow/Refill/Allow trace with equal
outputs on both back-ends. -/
theorem c4_backend_equivalence_witness :
    (∀ n, LimOp.opRefill n ∈
      [LimOp.opAllow 0, LimOp.opRefill 4, LimOp.opAllow 1] → 0 ≤ n) ∧
    (memRun 4 1 "client" [LimOp.opAllow 0, LimOp.opRefill 4, LimOp.opAllow 1]
        (Memory.newTokenBucket 4 0)).1 =
      (redisRun 4 1 [LimOp.opAllow 0, LimOp.opRefill 4, LimOp.opAllow 1]
        ⟨none, none⟩).1 := by
  have h : ∀ n, LimOp.opRefill n ∈
      [LimOp.opAllow 0, LimOp.opRefill 4, LimOp.opAllow 1] → 0 ≤ n := by
    intro n hn
    simp only [List.mem_cons, List.not_mem_nil, or_false] at hn
    rcases hn with h1 | h1 | h1
    · exact LimOp.noConfusion h1
    · injection h1 with h2
      rw [h2]; norm_num
    · exact LimOp.noConfusion h1
  exact ⟨h, c4_backend_equivalence 4 1 0 "client" _ h⟩

/-- Counterexample for C4 as stated: same single-key call sequence
(two Allows at time 0, Available at time 1, Refill(1), Available at
time 1) on both back-ends, capacity 4, rate 4.  The in-memory limiter
reports a final Available of 5, the Redis limiter reports 4: the Redis
`Available` script does not persist the natural refill it reports, so
the subsequent `Refill` adds to the raw stored count. -/
theorem c4_counterexample :
    (Memory.available 4 4 1 (Memory.refillTokens "c" 1
        (Memory.available 4 4 1
          (Memory.allow 4 4 "c" 0
            (Memory.allow 4 4 "c" 0 (Memory.newTokenBucket 4 0)).2).2).2)).1 = 5 ∧
    (Redis.availableScript 4 4 1 (Redis.refillScript 4 4 1
        (Redis.availableScript 4 4 1
          (Redis.allowScript 4 4 0
            (Redis.allowScript 4 4 0 ⟨none, none⟩).2).2).2)).1 = 4 ∧
    (5 : ℚ) ≠ 4 := by
  refine ⟨by norm_num [Memory.available, Memory.allow, Memory.refill,
      Memory.refillTokens, Memory.newTokenBucket],
    by norm_num [Redis.availableScript, Redis.refillScript,
      Redis.allowScript], by norm_num⟩

/-- Claim C5 (corrected).  The LOCAL limiter does not keep per-key
buckets: its `Allow` and `Refill` ignore the key entirely (one bucket is
shared by every client).  The REMOTE limiter does: a script operation on
one key leaves every other Redis key unchanged, and a fresh key first
touched by `Allow` starts at full capacity with last_refill = now
(holding capacity − 1 tokens right after that admitting Allow). -/
theorem c5_per_key_independence :
    (∀ (cap rate now m : ℚ) (key1 key2 : String) (b : Bucket),
      Memory.allow cap rate key1 now b = Memory.allow cap rate key2 now b ∧
      Memory.refillTokens key1 m b = Memory.refillTokens key2 m b) ∧
    (∀ (cap rate now m : ℚ) (keyPref key fk : String) (s : RStore),
      fk ≠ keyPref ++ key →
      ((Redis.storeAllow cap rate keyPref key now s).2 fk = s fk ∧
        Redis.storeRefill cap rate keyPref key m s fk = s fk ∧
        (Redis.storeAvailable cap rate keyPref key now s).2 fk = s fk)) ∧
    (∀ (cap rate now : ℚ) (keyPref key : String) (s : RStore),
      s (keyPref ++ key) = ⟨none, none⟩ → 1 ≤ cap →
      (Redis.storeAllow cap rate keyPref key now s).1 = true ∧
      (Redis.storeAllow cap rate keyPref key now s).2 (keyPref ++ key) =
        ⟨some (cap - 1, some now), some (Redis.expireSeconds cap rate)⟩) := by
  refine ⟨fun _ _ _ _ _ _ _ => ⟨rfl, rfl⟩, ?_, ?_⟩
  · intro cap rate now m keyPref key fk s hfk
    exact ⟨by simp [Redis.storeAllow, hfk],
      by simp [Redis.storeRefill, hfk], rfl⟩
  · intro cap rate now keyPref key s hfresh hcap
    have hscript : Redis.allowScript cap rate now (s (keyPref ++ key)) =
        (true, ⟨some (cap - 1, some now),
          some (Redis.expireSeconds cap rate)⟩) := by
      rw [hfresh]
      unfold Redis.allowScript
      simp [lt_irrefl, hcap]
    exact ⟨by simp [Redis.storeAllow, hscript],
      by simp [Redis.storeAllow, hscript]⟩

/-- Witness for C5: on a fresh store, `Allow` for client "a" (full key
"ratelimit:a") is permitted and leaves the unrelated key "ratelimit:b"
untouched. -/
theorem c5_per_key_independence_witness :
    ("ratelimit:b" ≠ "ratelimit:" ++ "a" ∧
      (fun _ : String => (⟨none, none⟩ : RedisKeyState)) ("ratelimit:" ++ "a") =
        ⟨none, none⟩ ∧ (1 : ℚ) ≤ 4) ∧
    (Redis.storeAllow 4 4 "ratelimit:" "a" 0
        (fun _ => ⟨none, none⟩)).2 "ratelimit:b" = ⟨none, none⟩ ∧
    (Redis.storeAllow 4 4 "ratelimit:" "a" 0
        (fun _ => ⟨none, none⟩)).1 = true := by
  have hne : "ratelimit:b" ≠ "ratelimit:" ++ "a" := by decide
  exact ⟨⟨hne, rfl, by norm_num⟩,
    (c5_per_key_independence.2.1 4 4 0 0 "ratelimit:" "a" "ratelimit:b"
      (fun _ => ⟨none, none⟩) hne).1,
    (c5_per_key_independence.2.2 4 4 0 "ratelimit:" "a"
      (fun _ => ⟨none, none⟩) rfl (by norm_num)).1⟩

/-- Counterexample for C5 as stated: with capacity 1, rate 1, key "a"
exhausts the local limiter and the first-ever `Allow` for the fresh key
"b" is denied — a fresh key does not start at full capacity, because the
local limiter has no per-key buckets. -/
theorem c5_counterexample :
    (Memory.allow 1 1 "b" 0
      (Memory.allow 1 1 "a" 0 (Memory.newTokenBucket 1 0)).2).1 = false := by
  norm_num [Memory.allow, Memory.refill, Memory.newTokenBucket]

/-- Claim C6 (confirmed).  `IsTrusted(payer)` is true iff the number of
recorded successes with timestamp strictly newer than now − window is at
least the threshold; after exactly threshold `RecordSuccess` calls within
the window `IsTrusted` is true, and after any `RecordFailure` the payer's
`RecentPayments` is 0 and `IsTrusted` is false (threshold being
positive, as `trust.New` guarantees). -/
theorem c6_trust_threshold :
    (∀ (cfg : TrustConfig) (now : ℚ) (st : Trust.State) (w : String),
      Trust.isTrusted cfg now st w = true ↔
        cfg.threshold ≤
          ((((st w).filter (fun ts => decide (now - cfg.window < ts))).length :
            ℤ))) ∧
    (∀ (cfg : TrustConfig) (now : ℚ) (st : Trust.State) (w : String)
        (ts : List ℚ),
      (∀ t ∈ ts, now - cfg.window < t ∧ t ≤ now) →
      (ts.length : ℤ) = cfg.threshold →
      Trust.isTrusted cfg now
        (ts.foldl (fun s t => Trust.recordSuccess cfg t w s) st) w = true) ∧
    (∀ (cfg : TrustConfig) (now : ℚ) (st : Trust.State) (w : String),
      0 < cfg.threshold →
      Trust.isTrusted cfg now (Trust.recordFailure w st) w = false ∧
      Trust.recentPayments cfg now (Trust.recordFailure w st) w = 0) := by
  refine ⟨?_, ?_, ?_⟩
  · intro cfg now st w
    simp [Trust.isTrusted, Trust.countRecent]
  · intro cfg now st w ts hts hlen
    have hcount := countRecent_fold cfg now w ts st (fun t ht => (hts t ht).2)
    have hcp : ts.countP (fun t => decide (now - cfg.window < t)) =
        ts.length := by
      rw [List.countP_eq_length]
      intro t ht
      simp [(hts t ht).1]
    simp only [Trust.isTrusted, hcount, hcp, decide_eq_true_eq]
    push_cast
    omega
  · intro cfg now st w hth
    constructor
    · simp only [Trust.isTrusted, Trust.countRecent, Trust.recordFailure,
        if_pos rfl]
      simp
      omega
    · simp [Trust.recentPayments, Trust.countRecent, Trust.recordFailure]

/-- Witness for C6: threshold 1, window 3600 s — one success at time 0
makes the payer trusted at time 0; a failure resets an existing record
and revokes trust. -/
theorem c6_trust_threshold_witness :
    ((∀ t ∈ [(0 : ℚ)], (0 : ℚ) - (⟨1, 3600⟩ : TrustConfig).window < t ∧
        t ≤ 0) ∧
      (([(0 : ℚ)].length : ℤ) = (⟨1, 3600⟩ : TrustConfig).threshold) ∧
      (0 : ℤ) < (⟨1, 3600⟩ : TrustConfig).threshold) ∧
    Trust.isTrusted ⟨1, 3600⟩ 0
      ([(0 : ℚ)].foldl (fun s t => Trust.recordSuccess ⟨1, 3600⟩ t "w" s)
        (fun _ => [])) "w" = true ∧
    Trust.isTrusted ⟨1, 3600⟩ 0
      (Trust.recordFailure "w" (fun _ => [(0 : ℚ)])) "w" = false := by
  have h1 : ∀ t ∈ [(0 : ℚ)],
      (0 : ℚ) - (⟨1, 3600⟩ : TrustConfig).window < t ∧ t ≤ 0 := by
    intro t ht
    simp only [List.mem_singleton] at ht
    subst ht
    norm_num
  have h2 : (([(0 : ℚ)].length : ℤ)) = (⟨1, 3600⟩ : TrustConfig).threshold := by
    simp
  exact ⟨⟨h1, h2, by norm_num⟩,
    c6_trust_threshold.2.1 ⟨1, 3600⟩ 0 (fun _ => []) "w" [0] h1 h2,
    (c6_trust_threshold.2.2 ⟨1, 3600⟩ 0 (fun _ => [(0 : ℚ)]) "w"
      (by norm_num)).1⟩

/-- Claim C7 (confirmed, on the worker-schedule model).  The single
consumer takes jobs in exact FIFO channel order; each settlement after
the first starts exactly the configured delay after the later of its
arrival and the previous completion — hence at least `delay` after the
previous settlement completes — and the delay is skipped only before the
first job since start-up. -/
theorem c7_fifo_serialized_delay (delay : ℚ) {α : Type}
    (jobs : List (JobSpec α)) (t0 : ℚ) :
    ((Queue.worker delay jobs t0 true).map JobRun.job = jobs) ∧
    List.Chain' (fun x y => y.start = max y.job.arrival x.done + delay ∧
        x.done + delay ≤ y.start) (Queue.worker delay jobs t0 true) ∧
    (∀ (j : JobSpec α) (rest : List (JobSpec α)), jobs = j :: rest →
      Queue.worker delay jobs t0 true =
        { job := j, start := max j.arrival t0,
            done := max j.arrival t0 + j.duration } ::
          Queue.worker delay rest (max j.arrival t0 + j.duration) false) := by
  refine ⟨worker_map_job delay jobs t0 true, worker_chain delay jobs t0 true, ?_⟩
  intro j rest h
  subst h
  simp [Queue.worker]

/-- Witness for C7: two jobs, delay 3 — the first starts with no delay,
the schedule is computed concretely. -/
theorem c7_fifo_serialized_delay_witness :
    (([⟨1, 0, 2⟩, ⟨2, 5, 1⟩] : List (JobSpec ℕ)) =
      ⟨1, 0, 2⟩ :: [⟨2, 5, 1⟩]) ∧
    Queue.worker 3 ([⟨1, 0, 2⟩, ⟨2, 5, 1⟩] : List (JobSpec ℕ)) 0 true =
      { job := ⟨1, 0, 2⟩, start := max 0 0, done := max 0 0 + 2 } ::
        Queue.worker 3 [⟨2, 5, 1⟩] (max 0 0 + 2) false :=
  ⟨rfl, (c7_fifo_serialized_delay 3 [⟨1, 0, 2⟩, ⟨2, 5, 1⟩] 0).2.2 _ _ rfl⟩

/-- Claim C8 (confirmed).  On the synchronous (untrusted) path the
pipeline settles first and branches: settlement success refills the
bucket by exactly `capacity` (whatever its current level), records a
trust success, and forwards; settlement failure yields a 402 with
"Settlement failed" and the settlement error, leaving bucket and trust
record untouched. -/
theorem c8_sync_settle_then_refill :
    ∀ (capacity : ℚ) (key walletAddr : String) (cfg : TrustConfig)
      (now : ℚ) (tx reason : String) (b : Bucket)
      (tracker : Option Trust.State),
      Pipeline.syncSettleBranch capacity key walletAddr cfg now
          ⟨true, tx, reason⟩ b tracker =
        (Outcome.forward, ⟨b.tokens + capacity, b.lastRefill⟩,
          tracker.map (Trust.recordSuccess cfg now walletAddr)) ∧
      Pipeline.syncSettleBranch capacity key walletAddr cfg now
          ⟨false, tx, reason⟩ b tracker =
        (Outcome.paymentRequired "Settlement failed" reason, b, tracker) := by
  intro capacity key walletAddr cfg now tx reason b tracker
  exact ⟨rfl, rfl⟩

/-- For a non-empty header the extraction dispatches on the two base64
decoders. -/
lemma extract_dispatch (h : String) (hh : h ≠ "") :
    Extract.extractWalletAddress h =
      match Extract.base64Decode false h with
      | some d => Extract.afterDecode d
      | none =>
        match Extract.base64Decode true h with
        | some d => Extract.afterDecode d
        | none => "" := by
  unfold Extract.extractWalletAddress
  rw [if_neg hh]

lemma afterDecode_parse_fail (bytes : List ℕ)
    (hp : Extract.parseJson bytes = none) : Extract.afterDecode bytes = "" := by
  unfold Extract.afterDecode
  rw [hp]

lemma afterDecode_parse_ok (bytes : List ℕ) (j : Extract.JVal)
    (fromAddr : String) (hp : Extract.parseJson bytes = some j)
    (hu : Extract.unmarshalPayment j = some fromAddr) :
    Extract.afterDecode bytes = Extract.lowerStr fromAddr := by
  unfold Extract.afterDecode
  rw [hp]
  dsimp only
  rw [hu]

/-- Claim C9 (corrected).  The payer id is the lowercased
`payload.authorization.from` of the JSON carried base64-encoded in the
payment header (standard alphabet first, URL-safe as fallback); any
decode or parse failure (or an absent field) yields the empty payer id.
But the empty payer id is NOT never-trusted: the tracker applies no
special case to the empty string, which becomes trusted after threshold
recorded successes like any other payer. -/
theorem c9_payer_extraction :
    (∀ h : String, Extract.base64Decode false h = none →
      Extract.base64Decode true h = none →
      Extract.extractWalletAddress h = "") ∧
    (∀ (h : String) (bytes : List ℕ),
      Extract.base64Decode false h = some bytes →
      Extract.parseJson bytes = none →
      Extract.extractWalletAddress h = "") ∧
    (∀ (h : String) (bytes : List ℕ) (j : Extract.JVal) (fromAddr : String),
      Extract.base64Decode false h = some bytes →
      Extract.parseJson bytes = some j →
      Extract.unmarshalPayment j = some fromAddr →
      Extract.extractWalletAddress h = Extract.lowerStr fromAddr) ∧
    (Extract.extractWalletAddress
        "eyJwYXlsb2FkIjp7ImF1dGhvcml6YXRpb24iOnsiZnJvbSI6IjB4QWJDMTIzIn19fQ==" =
      "0xabc123") ∧
    (∀ (cfg : TrustConfig) (now : ℚ) (st : Trust.State),
      Trust.isTrusted cfg now st "" = true ↔
        cfg.threshold ≤ ((Trust.countRecent cfg now st "") : ℤ)) := by
  refine ⟨?_, ?_, ?_, by decide, ?_⟩
  · intro h h1 h2
    by_cases hh : h = ""
    · subst hh
      exact absurd h1 (by decide)
    · rw [extract_dispatch h hh, h1, h2]
  · intro h bytes hdec hparse
    by_cases hh : h = ""
    · subst hh
      rw [show Extract.base64Decode false "" = some [] from rfl] at hdec
      injection hdec with hb
      subst hb
      simp [Extract.extractWalletAddress]
    · rw [extract_dispatch h hh, hdec]
      exact afterDecode_parse_fail bytes hparse
  · intro h bytes j fromAddr hdec hparse hunm
    by_cases hh : h = ""
    · subst hh
      rw [show Extract.base64Decode false "" = some [] from rfl] at hdec
      injection hdec with hb
      subst hb
      rw [show Extract.parseJson [] = none from rfl] at hparse
      exact Option.noConfusion hparse
    · rw [extract_dispatch h hh, hdec]
      exact afterDecode_parse_ok bytes j fromAddr hparse hunm
  · intro cfg now st
    simp [Trust.isTrusted]

/-- Witness for C9: a header that is valid in neither base64 alphabet
yields the empty payer id. -/
theorem c9_payer_extraction_witness :
    (Extract.base64Decode false "!!!!" = none ∧
      Extract.base64Decode true "!!!!" = none) ∧
    Extract.extractWalletAddress "!!!!" = "" :=
  ⟨⟨by decide, by decide⟩,
    c9_payer_extraction.1 "!!!!" (by decide) (by decide)⟩

/-- Counterexample for C9 as stated ("IsTrusted of the empty string is
always false"): with threshold 1 and a one-hour window, a single
`RecordSuccess` recorded under the empty payer id — exactly what the
synchronous path does when the header fails to parse — makes
`IsTrusted("")` true. -/
theorem c9_counterexample :
    Trust.isTrusted ⟨1, 3600⟩ 0
      (Trust.recordSuccess ⟨1, 3600⟩ 0 "" (fun _ => [])) "" = true := by
  simp [Trust.isTrusted, Trust.countRecent, Trust.recordSuccess]

/-- Claim C10 (corrected).  The `Allow` and `Refill` scripts each end by
resetting the per-key idle expiry to ⌈capacity/refill_rate⌉ + 1 seconds;
the `Available` script, however, performs no write at all — it neither
persists the refill it reports nor touches the expiry, so the expiry is
refreshed on `Allow` and `Refill` only. -/
theorem c10_expiry_reset :
    (∀ (cap rate now : ℚ) (s : RedisKeyState),
      ((Redis.allowScript cap rate now s).2).ttl =
        some (Redis.expireSeconds cap rate)) ∧
    (∀ (cap rate m : ℚ) (s : RedisKeyState),
      (Redis.refillScript cap rate m s).ttl =
        some (Redis.expireSeconds cap rate)) ∧
    (∀ (cap rate now : ℚ) (s : RedisKeyState),
      (Redis.availableScript cap rate now s).2 = s) := by
  refine ⟨?_, fun cap rate m s => rfl, ?_⟩
  · intro cap rate now s
    simp only [Redis.allowScript]
    split_ifs <;> rfl
  · intro cap rate now s
    unfold Redis.availableScript
    rcases hs : s.fields with _ | ⟨t, l⟩
    · rfl
    · rcases l with _ | l0
      · rfl
      · dsimp only
        split_ifs <;> rfl

/-- Counterexample for C10 as stated: a key whose latest `EXPIRE` argument
was 999 s keeps that expiry across an `Available` call (capacity 4, rate
4 would demand ⌈4/4⌉ + 1 = 2 s), so `Available` does not refresh the
idle expiry. -/
theorem c10_counterexample :
    (Redis.availableScript 4 4 1 ⟨some (2, some 0), some 999⟩).2.ttl =
      some 999 ∧
    some (999 : ℤ) ≠ some (Redis.expireSeconds 4 4) := by
  constructor
  · rfl
  · intro h
    injection h with h2
    rw [show Redis.expireSeconds 4 4 = 2 by
      norm_num [Redis.expireSeconds]] at h2
    norm_num at h2

end RateLimitX402
